import Mathlib

/-!
# Verification of the Inshorts-task trending and geo-clustering subsystem

Shallow embedding of the trending computation and location-clustered caching
code of `mahigadamsetty/Inshorts-task` (Go), together with proofs and
refutations of the frozen specification claims.

Modelling conventions:
* `float64` values are modelled as exact rationals (`ℚ`); IEEE rounding,
  infinities and signed zero are outside the model.
* The transcendental library functions the Go code calls (`math.Exp`,
  `math.Sin`, `math.Cos`, `math.Sqrt`, `math.Atan2`, `math.Pi`) are
  abstracted into a record of rational-valued operations (`RealOps`);
  theorems assume only the algebraic facts about them that the claim needs.
* Times (`time.Time`, `time.Duration`) are rationals measured in hours, so
  `now.Sub(t).Hours()` becomes `now - t`.
* The external GORM store is modelled by the contents of its two tables
  (a list of events and a list of articles, in the enumeration order the
  store happens to return) plus failure flags for the three reads the
  trending code performs.
-/

namespace Inshorts

/-- The transcendental operations of Go's `math` package, abstracted as
rational-valued functions.  Each theorem states the facts about them that
it relies on as hypotheses. -/
structure RealOps where
  exp : ℚ → ℚ
  sin : ℚ → ℚ
  cos : ℚ → ℚ
  sqrt : ℚ → ℚ
  atan2 : ℚ → ℚ → ℚ
  pi : ℚ

/-- Go's `math.Round`: round to the nearest integer, ties away from zero. -/
def goRound (x : ℚ) : ℤ :=
  if 0 ≤ x then ⌊x + 1/2⌋ else -⌊-x + 1/2⌋

/-- Round to the nearest integer, ties to even: the rounding performed by
`fmt.Sprintf("%.2f", _)` on the exact value. -/
def roundHalfEven (x : ℚ) : ℤ :=
  let f := ⌊x⌋
  if x - f < 1/2 then f
  else if 1/2 < x - f then f + 1
  else if f % 2 = 0 then f else f + 1

/-- Render a natural number below 100 with two digits. -/
def twoDigits (n : ℕ) : String :=
  (if n < 10 then "0" else "") ++ toString n

/-- `fmt.Sprintf("%.2f", x)`: fixed two-decimal rendering of a rational. -/
def fmt2 (x : ℚ) : String :=
  let n := roundHalfEven (x * 100)
  (if n < 0 then "-" else "") ++ toString (n.natAbs / 100) ++ "." ++ twoDigits (n.natAbs % 100)

/-- `internal/utils/geo.go`, `GetLocationClusterKey` (the `services`
variant `getClusterKey` is the same computation): round each coordinate to
the nearest multiple of `clusterDegrees` and format both to two decimals.
Note the Go code performs no validation of `clusterDegrees`. -/
def GetLocationClusterKey (lat lon clusterDegrees : ℚ) : String :=
  let clusterLat : ℚ := (goRound (lat / clusterDegrees) : ℚ) * clusterDegrees
  let clusterLon : ℚ := (goRound (lon / clusterDegrees) : ℚ) * clusterDegrees
  fmt2 clusterLat ++ "," ++ fmt2 clusterLon

/-- `internal/utils/geo.go`, `earthRadiusKm`. -/
def earthRadiusKm : ℚ := 6371

/-- `internal/utils/geo.go`, `HaversineDistance`. -/
def HaversineDistance (ops : RealOps) (lat1 lon1 lat2 lon2 : ℚ) : ℚ :=
  let lat1Rad := lat1 * ops.pi / 180
  let lat2Rad := lat2 * ops.pi / 180
  let deltaLat := (lat2 - lat1) * ops.pi / 180
  let deltaLon := (lon2 - lon1) * ops.pi / 180
  let a := ops.sin (deltaLat / 2) * ops.sin (deltaLat / 2) +
    ops.cos lat1Rad * ops.cos lat2Rad *
      (ops.sin (deltaLon / 2) * ops.sin (deltaLon / 2))
  let c := 2 * ops.atan2 (ops.sqrt a) (ops.sqrt (1 - a))
  earthRadiusKm * c

/-- `internal/models/event.go`: the interaction kinds `view` and `click`. -/
inductive EventType where
  | view
  | click
deriving DecidableEq

/-- `internal/models/event.go`, `Event` — the fields the trending code
reads.  `createdAt` is in hours. -/
structure Event where
  articleId : String
  eventType : EventType
  latitude : ℚ
  longitude : ℚ
  createdAt : ℚ
deriving DecidableEq

/-- `internal/models/article.go`, `Article` — the fields the trending code
reads. -/
structure Article where
  id : String
  publicationDate : ℚ
  latitude : ℚ
  longitude : ℚ
deriving DecidableEq

/-- `services` trending code, `articleScore`: an article paired with its
accumulated trending score. -/
structure articleScore where
  article : Article
  score : ℚ
deriving DecidableEq

/-- The body of `computeTrending`'s inner scoring loop: interaction weight
(2 for a click, 1 for a view) times exponential recency decay
`exp(-ageHours/12)` times inverse-distance decay `1/(1+distanceKm/100)`. -/
def eventScore (ops : RealOps) (lat lon now : ℚ) (e : Event) : ℚ :=
  let weight : ℚ := if e.eventType = EventType.click then 2 else 1
  let age := now - e.createdAt
  let recencyFactor := ops.exp (-age / 12)
  let distance := HaversineDistance ops lat lon e.latitude e.longitude
  let geoFactor := 1 / (1 + distance / 100)
  weight * recencyFactor * geoFactor

/-- `interactionScore` as accumulated by `computeTrending`: a left fold of
`+=` over the article's events, starting from `0.0`. -/
def interactionScore (ops : RealOps) (lat lon now : ℚ) (events : List Event) : ℚ :=
  events.foldl (fun acc e => acc + eventScore ops lat lon now e) 0

/-- One outer iteration of the swap sort in `computeTrending`: scan the
remaining entries with a current candidate in slot `i`, swapping whenever a
strictly greater score is found (`scores[j].score > scores[i].score`).
Returns the selected entry together with the rest in the order the swaps
leave them (a displaced candidate stays at the position where it was
swapped out). -/
def selectPass (x : articleScore) : List articleScore → articleScore × List articleScore
  | [] => (x, [])
  | y :: t =>
    if x.score < y.score then
      ((selectPass y t).1, x :: (selectPass y t).2)
    else
      ((selectPass x t).1, y :: (selectPass x t).2)

/-- The double-loop swap sort of `computeTrending`, descending by score,
written with a fuel argument (the fuel is the list length, which
`selectPass` preserves). -/
def goSortAux : ℕ → List articleScore → List articleScore
  | 0, _ => []
  | _ + 1, [] => []
  | n + 1, x :: t => (selectPass x t).1 :: goSortAux n (selectPass x t).2

/-- The sorting phase of `computeTrending`. -/
def goSortScores (l : List articleScore) : List articleScore :=
  goSortAux l.length l

/-- The external store's two tables, in the enumeration order its reads
happen to return rows, plus failure flags for the three reads the trending
code performs.  GORM guarantees no order for `Find` without `Order`, so the
list order is part of the store's nondeterminism, while a failing read
surfaces as a non-nil `Error`. -/
structure Store where
  events : List Event
  articles : List Article
  eventsReadFails : Bool
  articlesReadFails : Bool
  fallbackReadFails : Bool

/-- The error a failed store read propagates (`StoreUnavailable`). -/
inductive StoreErr where
  | storeUnavailable
deriving DecidableEq

/-- The events read `Where("created_at > ?", oneHourAgo)`: events created
strictly within the last hour. -/
def recentEventsRead (events : List Event) (now : ℚ) : List Event :=
  events.filter (fun e => decide (now - 1 < e.createdAt))

/-- The fallback article read
`Order("publication_date DESC").Limit(limit).Find`: the table sorted by
publication date descending and truncated. -/
def recentArticlesRead (articles : List Article) (limit : ℕ) : List Article :=
  (List.insertionSort (fun a b => b.publicationDate ≤ a.publicationDate) articles).take limit

/-- The article read `Where("id IN ?", ids).Find`: rows whose id is in the
requested set, in table enumeration order. -/
def articlesByIdsRead (articles : List Article) (ids : List String) : List Article :=
  articles.filter (fun a => ids.contains a.id)

/-- `TrendingService.computeTrending`: fetch the window events, fall back
to recent articles when the window is empty, otherwise score each fetched
article by summing `eventScore` over its window events, sort by score with
the swap sort, truncate to `limit` and project the articles. -/
def computeTrending (ops : RealOps) (st : Store) (lat lon : ℚ) (limit : ℕ) (now : ℚ) :
    Except StoreErr (List Article) :=
  if st.eventsReadFails then .error .storeUnavailable else
  let events := recentEventsRead st.events now
  if events.isEmpty then
    if st.fallbackReadFails then .error .storeUnavailable
    else .ok (recentArticlesRead st.articles limit)
  else
    if st.articlesReadFails then .error .storeUnavailable else
    let articles := articlesByIdsRead st.articles (events.map (·.articleId))
    let scores := articles.map (fun a =>
      { article := a
        score := interactionScore ops lat lon now
          (events.filter (fun e => e.articleId == a.id)) })
    .ok (((goSortScores scores).take limit).map (·.article))

/-- `TrendingCache` value type of the `services.TrendingService` variant:
the computed list plus its expiry instant. -/
structure TrendingCacheEntry where
  articles : List Article
  expiresAt : ℚ
deriving DecidableEq

/-- `TrendingService` state: the cluster-key cache (a Go map, modelled as
an association list where an assignment prepends and `lookup` sees the
newest binding), the TTL and the cluster granularity. -/
structure TrendingService where
  cache : List (String × TrendingCacheEntry)
  cacheTTL : ℚ
  clusterDegrees : ℚ

/-- `TrendingService.GetTrendingArticles`: compute the cluster key, serve
up to `limit` entries from a fresh cache entry, otherwise compute with the
inflated limit `limit * 3`, cache the full result and serve its first
`limit` entries.  A failed computation is returned as the error with the
cache untouched. -/
def GetTrendingArticles (ops : RealOps) (ts : TrendingService) (st : Store)
    (lat lon : ℚ) (limit : ℕ) (now : ℚ) :
    Except StoreErr (List Article) × TrendingService :=
  let clusterKey := GetLocationClusterKey lat lon ts.clusterDegrees
  let onMiss : Except StoreErr (List Article) × TrendingService :=
    match computeTrending ops st lat lon (limit * 3) now with
    | .error e => (.error e, ts)
    | .ok articles =>
      (.ok (if articles.length ≤ limit then articles else articles.take limit),
       { ts with cache := (clusterKey, ⟨articles, now + ts.cacheTTL⟩) :: ts.cache })
  match List.lookup clusterKey ts.cache with
  | some cached =>
    if now < cached.expiresAt then
      (.ok (if cached.articles.length ≤ limit then cached.articles
            else cached.articles.take limit), ts)
    else onMiss
  | none => onMiss

/-- `CacheEntry` of the package-level `TrendingCache` variant: the computed
list plus the instant it was written. -/
structure CacheEntry where
  articles : List Article
  timestamp : ℚ
deriving DecidableEq

/-- The package-level `TrendingCache`: cluster-key map and TTL. -/
structure TrendingCache where
  cache : List (String × CacheEntry)
  ttl : ℚ

/-- `TrendingCache.Get`: not-found when no entry exists for the key or the
entry's age `now - timestamp` strictly exceeds the TTL; otherwise the
stored list. -/
def TrendingCache.Get (tc : TrendingCache) (now : ℚ) (key : String) :
    Option (List Article) :=
  match List.lookup key tc.cache with
  | none => none
  | some entry => if tc.ttl < now - entry.timestamp then none else some entry.articles

/-- Concrete instantiation of the abstract operations, used as a test
fixture by witnesses and counterexamples: `exp` is constantly 1, `atan2`
returns its first argument, `pi = 0`, the rest are the identity. -/
def opsW : RealOps := ⟨fun _ => 1, id, id, id, fun y _ => y, 0⟩

/-- Test fixture: an article with id `"a"` at the origin. -/
def artA : Article := ⟨"a", 0, 0, 0⟩

/-- Test fixture: an article with id `"b"` at the origin. -/
def artB : Article := ⟨"b", 0, 0, 0⟩

/-- Test fixture: a VIEW event for `"a"` at the origin at time 0. -/
def evA : Event := ⟨"a", .view, 0, 0, 0⟩

/-- Test fixture: a VIEW event for `"b"` at the origin at time 0. -/
def evB : Event := ⟨"b", .view, 0, 0, 0⟩

/-- Evaluation rule for `goRound` on nonnegative inputs. -/
theorem goRound_eq_of_nonneg (x : ℚ) (m : ℤ) (hx : 0 ≤ x)
    (h1 : (m : ℚ) ≤ x + 1/2) (h2 : x + 1/2 < m + 1) : goRound x = m := by
  unfold goRound
  rw [if_pos hx, Int.floor_eq_iff]
  exact ⟨h1, by linarith⟩

/-- Evaluation rule for `goRound` on negative inputs. -/
theorem goRound_eq_of_neg (x : ℚ) (m : ℤ) (hx : x < 0)
    (h1 : (-m : ℚ) ≤ -x + 1/2) (h2 : -x + 1/2 < -m + 1) : goRound x = m := by
  unfold goRound
  rw [if_neg (not_le.mpr hx)]
  have : ⌊-x + 1/2⌋ = -m := by
    rw [Int.floor_eq_iff]
    exact ⟨by push_cast; linarith, by push_cast; linarith⟩
  rw [this, neg_neg]

/-- `roundHalfEven` fixes integers. -/
theorem roundHalfEven_intCast (m : ℤ) : roundHalfEven (m : ℚ) = m := by
  unfold roundHalfEven
  rw [Int.floor_intCast]
  norm_num

/-- `goRound` lands within half a unit of its argument. -/
theorem abs_sub_goRound (x : ℚ) : |x - (goRound x : ℚ)| ≤ 1/2 := by
  unfold goRound
  rcases le_or_lt 0 x with h | h
  · rw [if_pos h]
    have h1 : (⌊x + 1/2⌋ : ℚ) ≤ x + 1/2 := Int.floor_le _
    have h2 : x + 1/2 - 1 < (⌊x + 1/2⌋ : ℚ) := Int.sub_one_lt_floor _
    rw [abs_le]
    constructor <;> linarith
  · rw [if_neg (not_le.mpr h)]
    have h1 : (⌊-x + 1/2⌋ : ℚ) ≤ -x + 1/2 := Int.floor_le _
    have h2 : -x + 1/2 - 1 < (⌊-x + 1/2⌋ : ℚ) := Int.sub_one_lt_floor _
    rw [abs_le]
    push_cast
    constructor <;> linarith

/-- A point strictly within half a unit of an integer rounds to that integer. -/
theorem goRound_eq_of_abs_lt (x : ℚ) (m : ℤ) (h : |x - m| < 1/2) : goRound x = m := by
  rw [abs_lt] at h
  obtain ⟨hl, hr⟩ := h
  rcases le_or_lt 0 x with hx | hx
  · exact goRound_eq_of_nonneg x m hx (by linarith) (by linarith)
  · exact goRound_eq_of_neg x m hx (by linarith) (by linarith)

/-- C5: the embedded haversine distance is zero on coincident points and is
symmetric, assuming only that `sin` is odd with `sin 0 = 0`, `sqrt 0 = 0`,
and `atan2 0 (sqrt 1) = 0` — facts true of the real functions. -/
theorem haversine_zero_self_and_symm (ops : RealOps)
    (hsin0 : ops.sin 0 = 0)
    (hodd : ∀ x, ops.sin (-x) = - ops.sin x)
    (hsqrt0 : ops.sqrt 0 = 0)
    (hatan0 : ops.atan2 0 (ops.sqrt 1) = 0) :
    (∀ lat lon, HaversineDistance ops lat lon lat lon = 0) ∧
    (∀ lat1 lon1 lat2 lon2,
      HaversineDistance ops lat1 lon1 lat2 lon2 =
        HaversineDistance ops lat2 lon2 lat1 lon1) := by
  constructor
  · intro lat lon
    simp [HaversineDistance, hsin0, hsqrt0, hatan0]
  · intro lat1 lon1 lat2 lon2
    have h1 : (lat1 - lat2) * ops.pi / 180 / 2 = -((lat2 - lat1) * ops.pi / 180 / 2) := by ring
    have h2 : (lon1 - lon2) * ops.pi / 180 / 2 = -((lon2 - lon1) * ops.pi / 180 / 2) := by ring
    simp only [HaversineDistance, h1, h2, hodd]
    ring_nf

/-- Witness for C5 at a concrete instantiation of the abstract operations. -/
theorem haversine_zero_self_and_symm_witness :
    HaversineDistance ⟨id, id, id, id, fun y _ => y, 3⟩ 10 20 10 20 = 0 ∧
    HaversineDistance ⟨id, id, id, id, fun y _ => y, 3⟩ 1 2 3 4 =
      HaversineDistance ⟨id, id, id, id, fun y _ => y, 3⟩ 3 4 1 2 := by
  have h := haversine_zero_self_and_symm ⟨id, id, id, id, fun y _ => y, 3⟩
    rfl (fun x => rfl) rfl rfl
  exact ⟨h.1 10 20, h.2 1 2 3 4⟩

/-- C3 counterexample: with a non-positive cluster granularity the code does
not fail — it still returns an ordinary formatted key. -/
theorem clusterKey_nonpositive_returns_key :
    (-1 : ℚ) ≤ 0 ∧ GetLocationClusterKey 1 1 (-1) = "1.00,1.00" := by
  refine ⟨by norm_num, ?_⟩
  have hr : goRound ((1 : ℚ) / (-1)) = -1 :=
    goRound_eq_of_neg _ _ (by norm_num) (by norm_num) (by norm_num)
  have harg : ((goRound ((1 : ℚ) / (-1)) : ℚ) * (-1)) = ((1 : ℤ) : ℚ) := by
    rw [hr]; norm_num
  simp only [GetLocationClusterKey, harg]
  have h100 : (((1 : ℤ) : ℚ) * 100) = ((100 : ℤ) : ℚ) := by norm_num
  simp only [fmt2, h100, roundHalfEven_intCast]
  rfl

/-- C3 amended: `GetLocationClusterKey` never fails.  For `clusterDegrees > 0`
it returns the two-decimal rendering of each coordinate rounded to the
nearest multiple of `clusterDegrees` (the chosen multiple is within half a
granularity of the coordinate), joined by a comma. -/
theorem clusterKey_total_and_rounds (lat lon d : ℚ) (hd : 0 < d) :
    GetLocationClusterKey lat lon d =
      fmt2 ((goRound (lat / d) : ℚ) * d) ++ "," ++ fmt2 ((goRound (lon / d) : ℚ) * d) ∧
    |lat - (goRound (lat / d) : ℚ) * d| ≤ d / 2 ∧
    |lon - (goRound (lon / d) : ℚ) * d| ≤ d / 2 := by
  have hne : d ≠ 0 := ne_of_gt hd
  have bound : ∀ x : ℚ, |x - (goRound (x / d) : ℚ) * d| ≤ d / 2 := by
    intro x
    have key : x - (goRound (x / d) : ℚ) * d = d * (x / d - goRound (x / d)) := by
      field_simp
      try ring
    rw [key, abs_mul, abs_of_pos hd]
    calc d * |x / d - (goRound (x / d) : ℚ)|
        ≤ d * (1/2) := mul_le_mul_of_nonneg_left (abs_sub_goRound _) hd.le
      _ = d / 2 := by ring
  exact ⟨rfl, bound lat, bound lon⟩

/-- Witness for C3 amended at `lat = 1`, `lon = 2`, `clusterDegrees = 1/2`. -/
theorem clusterKey_total_and_rounds_witness :
    |(1 : ℚ) - (goRound ((1 : ℚ) / (1/2)) : ℚ) * (1/2)| ≤ (1/2) / 2 :=
  (clusterKey_total_and_rounds 1 2 (1/2) (by norm_num)).2.1

/-- C4 counterexample: two latitudes `0.2` and `0.3` differ by at most half a
cluster-degree (granularity `0.5`), yet they straddle a rounding boundary and
get different cluster keys. -/
theorem clusterKey_half_degree_counterexample :
    |(1/5 : ℚ) - 3/10| ≤ (1/2) / 2 ∧ |(0 : ℚ) - 0| ≤ (1/2) / 2 ∧
    GetLocationClusterKey (1/5) 0 (1/2) ≠ GetLocationClusterKey (3/10) 0 (1/2) := by
  refine ⟨by rw [abs_le]; constructor <;> norm_num, by norm_num, ?_⟩
  have h1 : goRound ((1/5 : ℚ) / (1/2)) = 0 :=
    goRound_eq_of_nonneg _ _ (by norm_num) (by norm_num) (by norm_num)
  have h2 : goRound ((3/10 : ℚ) / (1/2)) = 1 :=
    goRound_eq_of_nonneg _ _ (by norm_num) (by norm_num) (by norm_num)
  have h3 : goRound ((0 : ℚ) / (1/2)) = 0 :=
    goRound_eq_of_nonneg _ _ (by norm_num) (by norm_num) (by norm_num)
  have e1 : ((goRound ((1/5 : ℚ) / (1/2)) : ℚ) * (1/2) * 100) = ((0 : ℤ) : ℚ) := by
    rw [h1]; norm_num
  have e2 : ((goRound ((3/10 : ℚ) / (1/2)) : ℚ) * (1/2) * 100) = ((50 : ℤ) : ℚ) := by
    rw [h2]; norm_num
  have e3 : ((goRound ((0 : ℚ) / (1/2)) : ℚ) * (1/2) * 100) = ((0 : ℤ) : ℚ) := by
    rw [h3]; norm_num
  simp only [GetLocationClusterKey, fmt2, e1, e2, e3, roundHalfEven_intCast]
  decide

/-- C4 amended: the key computation is a pure function of its arguments, and
any two coordinates lying strictly within half a cluster-degree of the same
multiple of `clusterDegrees` on both axes receive the same key. -/
theorem clusterKey_pure_and_same_multiple (lat1 lon1 lat2 lon2 d : ℚ) (m n : ℤ)
    (hd : 0 < d)
    (hlat1 : |lat1 - m * d| < d / 2) (hlat2 : |lat2 - m * d| < d / 2)
    (hlon1 : |lon1 - n * d| < d / 2) (hlon2 : |lon2 - n * d| < d / 2) :
    GetLocationClusterKey lat1 lon1 d = GetLocationClusterKey lat1 lon1 d ∧
    GetLocationClusterKey lat1 lon1 d = GetLocationClusterKey lat2 lon2 d := by
  have hne : d ≠ 0 := ne_of_gt hd
  have near : ∀ (x : ℚ) (k : ℤ), |x - k * d| < d / 2 → goRound (x / d) = k := by
    intro x k hx
    apply goRound_eq_of_abs_lt
    have key : x / d - (k : ℚ) = (x - k * d) / d := by
      field_simp
      try ring
    rw [key, abs_div, abs_of_pos hd, div_lt_iff₀ hd]
    calc |x - k * d| < d / 2 := hx
      _ = 1/2 * d := by ring
  refine ⟨rfl, ?_⟩
  unfold GetLocationClusterKey
  rw [near lat1 m hlat1, near lat2 m hlat2, near lon1 n hlon1, near lon2 n hlon2]

/-- Witness for C4 amended: `0.45` and `0.55` both lie strictly within a
quarter degree of the multiple `1 * 0.5`, so they share a key. -/
theorem clusterKey_pure_and_same_multiple_witness :
    GetLocationClusterKey (9/20) 0 (1/2) = GetLocationClusterKey (11/20) 0 (1/2) :=
  (clusterKey_pure_and_same_multiple (9/20) 0 (11/20) 0 (1/2) 1 0 (by norm_num)
    (by rw [abs_lt]; constructor <;> norm_num)
    (by rw [abs_lt]; constructor <;> norm_num)
    (by rw [abs_lt]; constructor <;> norm_num)
    (by rw [abs_lt]; constructor <;> norm_num)).2

/-- C8: `TrendingCache.Get` returns not-found exactly when no entry exists
for the key or the entry's age strictly exceeds the TTL, and a hit always
comes from a present, unexpired entry and returns exactly its stored list —
a stale entry still physically present is never returned. -/
theorem trendingCacheGet_found_iff (tc : TrendingCache) (now : ℚ) (key : String) :
    (tc.Get now key = none ↔
      List.lookup key tc.cache = none ∨
      ∃ e, List.lookup key tc.cache = some e ∧ now - e.timestamp > tc.ttl) ∧
    (∀ l, tc.Get now key = some l →
      ∃ e, List.lookup key tc.cache = some e ∧ now - e.timestamp ≤ tc.ttl ∧
        l = e.articles) := by
  unfold TrendingCache.Get
  split
  · rename_i h
    rw [h]
    exact ⟨⟨fun _ => Or.inl rfl, fun _ => rfl⟩, fun l hl => Option.noConfusion hl⟩
  · rename_i e h
    rw [h]
    rcases lt_or_le tc.ttl (now - e.timestamp) with hlt | hle
    · rw [if_pos hlt]
      exact ⟨⟨fun _ => Or.inr ⟨e, rfl, hlt⟩, fun _ => rfl⟩,
        fun l hl => Option.noConfusion hl⟩
    · rw [if_neg (not_lt.mpr hle)]
      constructor
      · constructor
        · intro hn
          exact Option.noConfusion hn
        · intro hor
          rcases hor with h0 | ⟨e', he', hgt⟩
          · exact Option.noConfusion h0
          · rw [Option.some.injEq] at he'
            subst he'
            exact absurd hgt (not_lt.mpr hle)
      · intro l hl
        rw [Option.some.injEq] at hl
        exact ⟨e, rfl, hle, hl.symm⟩

/-- Witness for C8: a fresh entry is a hit returning its stored list. -/
theorem trendingCacheGet_found_iff_witness :
    ∃ e, List.lookup "k" [("k", (⟨[], 0⟩ : CacheEntry))] = some e ∧
      (5 : ℚ) - e.timestamp ≤ 10 ∧ ([] : List Article) = e.articles := by
  refine (trendingCacheGet_found_iff ⟨[("k", ⟨[], 0⟩)], 10⟩ 5 "k").2 [] ?_
  show TrendingCache.Get ⟨[("k", ⟨[], 0⟩)], 10⟩ 5 "k" = some []
  unfold TrendingCache.Get
  norm_num [List.lookup]

/-- Left folds of `+=` compute sums. -/
theorem foldl_add_eq_sum (f : Event → ℚ) (l : List Event) (acc : ℚ) :
    l.foldl (fun a e => a + f e) acc = acc + (l.map f).sum := by
  induction l generalizing acc with
  | nil => simp
  | cons e t ih => rw [List.foldl_cons, ih, List.map_cons, List.sum_cons]; ring

/-- C1: the score `computeTrending` accumulates for an article is the sum,
over the window events referencing that article's id, of
`interactionWeight * recencyFactor * geoFactor`; the accumulation is
additive over events (sum, not average or max); and a single VIEW event at
haversine distance 100 km and age 12 hours contributes exactly
`1 * exp(-1) * (1/2)`. -/
theorem computeTrending_score_is_weighted_sum (ops : RealOps) (lat lon now : ℚ) :
    (∀ (events : List Event) (a : Article),
      interactionScore ops lat lon now (events.filter (fun e => e.articleId == a.id)) =
        ((events.filter (fun e => e.articleId == a.id)).map
          (eventScore ops lat lon now)).sum) ∧
    (∀ es1 es2 : List Event,
      interactionScore ops lat lon now (es1 ++ es2) =
        interactionScore ops lat lon now es1 + interactionScore ops lat lon now es2) ∧
    (∀ e : Event, e.eventType = EventType.view → now - e.createdAt = 12 →
      HaversineDistance ops lat lon e.latitude e.longitude = 100 →
      eventScore ops lat lon now e = ops.exp (-1) * (1/2)) := by
  refine ⟨?_, ?_, ?_⟩
  · intro events a
    unfold interactionScore
    rw [foldl_add_eq_sum, zero_add]
  · intro es1 es2
    unfold interactionScore
    rw [List.foldl_append, foldl_add_eq_sum, foldl_add_eq_sum, foldl_add_eq_sum]
    ring
  · intro e hv hage hdist
    simp only [eventScore, hv, hage, hdist]
    rw [if_neg (fun hck => EventType.noConfusion hck)]
    norm_num

/-- Witness for C1's per-event instance, at an abstract-operation
instantiation whose haversine value is 100 km for the chosen points. -/
theorem computeTrending_score_is_weighted_sum_witness :
    eventScore ⟨fun x => x, id, id, id, fun _ _ => 50/6371, 0⟩ 0 0 12
      ⟨"a", EventType.view, 0, 0, 0⟩ =
      RealOps.exp ⟨fun x => x, id, id, id, fun _ _ => 50/6371, 0⟩ (-1) * (1/2) := by
  refine (computeTrending_score_is_weighted_sum
      ⟨fun x => x, id, id, id, fun _ _ => 50/6371, 0⟩ 0 0 12).2.2
    ⟨"a", EventType.view, 0, 0, 0⟩ rfl (by norm_num) ?_
  simp only [HaversineDistance, earthRadiusKm]
  norm_num

/-- C2: with zero events in the recent window (and the reads succeeding),
`computeTrending` returns the `limit` most recently published articles:
the result is the sorted-descending table truncated to `limit`, it is
sorted by publication date descending, has `min limit total` entries, every
returned article was published no earlier than every omitted one, and it is
nonempty whenever articles exist and `limit > 0`. -/
theorem computeTrending_no_events_fallback (ops : RealOps) (st : Store)
    (lat lon : ℚ) (limit : ℕ) (now : ℚ)
    (hnoev : recentEventsRead st.events now = [])
    (hev : st.eventsReadFails = false) (hfb : st.fallbackReadFails = false) :
    computeTrending ops st lat lon limit now =
      .ok (recentArticlesRead st.articles limit) ∧
    List.Sorted (fun a b => b.publicationDate ≤ a.publicationDate)
      (recentArticlesRead st.articles limit) ∧
    (recentArticlesRead st.articles limit).length = min limit st.articles.length ∧
    (∀ a ∈ recentArticlesRead st.articles limit,
      ∀ b ∈ (List.insertionSort (fun a b => b.publicationDate ≤ a.publicationDate)
          st.articles).drop limit,
        b.publicationDate ≤ a.publicationDate) ∧
    (st.articles ≠ [] → 0 < limit → recentArticlesRead st.articles limit ≠ []) := by
  haveI htot : IsTotal Article (fun a b => b.publicationDate ≤ a.publicationDate) :=
    ⟨fun a b => le_total _ _⟩
  haveI htr : IsTrans Article (fun a b => b.publicationDate ≤ a.publicationDate) :=
    ⟨fun _ _ _ hab hbc => le_trans hbc hab⟩
  have hsorted := List.sorted_insertionSort
    (fun a b => b.publicationDate ≤ a.publicationDate) st.articles
  refine ⟨?_, ?_, ?_, ?_, ?_⟩
  · unfold computeTrending
    rw [hev, hnoev, hfb]
    simp
  · unfold recentArticlesRead
    exact hsorted.take
  · unfold recentArticlesRead
    rw [List.length_take, List.length_insertionSort]
  · intro a ha b hb
    exact hsorted.rel_of_mem_take_of_mem_drop ha hb
  · intro hne hpos
    unfold recentArticlesRead
    intro hcon
    have hlen : ((List.insertionSort (fun a b => b.publicationDate ≤ a.publicationDate)
        st.articles).take limit).length = 0 := by rw [hcon]; rfl
    rw [List.length_take, List.length_insertionSort] at hlen
    rcases Nat.min_eq_zero_iff.mp hlen with h0 | h0
    · exact absurd h0 (Nat.pos_iff_ne_zero.mp hpos)
    · exact hne (List.length_eq_zero.mp h0)

/-- Witness for C2 on a two-article store with an empty event window. -/
theorem computeTrending_no_events_fallback_witness :
    computeTrending ⟨id, id, id, id, fun y _ => y, 3⟩
      ⟨[⟨"a", .view, 0, 0, 0⟩], [⟨"x", 1, 0, 0⟩, ⟨"y", 2, 0, 0⟩], false, false, false⟩
      0 0 1 5 =
      .ok (recentArticlesRead [⟨"x", 1, 0, 0⟩, ⟨"y", 2, 0, 0⟩] 1) ∧
    recentArticlesRead [⟨"x", 1, 0, 0⟩, ⟨"y", 2, 0, 0⟩] 1 ≠ [] := by
  have hwin : recentEventsRead [⟨"a", .view, 0, 0, 0⟩] 5 = [] := by
    unfold recentEventsRead
    norm_num [List.filter]
  have h := computeTrending_no_events_fallback ⟨id, id, id, id, fun y _ => y, 3⟩
    ⟨[⟨"a", .view, 0, 0, 0⟩], [⟨"x", 1, 0, 0⟩, ⟨"y", 2, 0, 0⟩], false, false, false⟩
    0 0 1 5 hwin rfl rfl
  exact ⟨h.1, h.2.2.2.2 (by simp) (by norm_num)⟩

/-- The `if len(articles) <= limit { return articles } return articles[:limit]`
idiom equals a plain `take limit`. -/
theorem take_if_short (l : List Article) (limit : ℕ) :
    (if l.length ≤ limit then l else l.take limit) = l.take limit := by
  split
  · exact (List.take_of_length_le (by assumption)).symm
  · rfl

/-- C9: on a fresh cache hit `GetTrendingArticles` returns the first
`min(limit, length)` cached entries with the cache untouched; on a miss it
computes with internal limit `limit * 3`, stores the full inflated result
under the cluster key, and returns its first `limit` entries; and every
successful result has at most `limit` entries. -/
theorem getTrendingArticles_cache_protocol (ops : RealOps) (ts : TrendingService)
    (st : Store) (lat lon : ℚ) (limit : ℕ) (now : ℚ) :
    (∀ c, List.lookup (GetLocationClusterKey lat lon ts.clusterDegrees) ts.cache = some c →
      now < c.expiresAt →
      GetTrendingArticles ops ts st lat lon limit now = (.ok (c.articles.take limit), ts)) ∧
    ((List.lookup (GetLocationClusterKey lat lon ts.clusterDegrees) ts.cache = none ∨
      ∃ c, List.lookup (GetLocationClusterKey lat lon ts.clusterDegrees) ts.cache = some c ∧
        c.expiresAt ≤ now) →
      ∀ arts, computeTrending ops st lat lon (limit * 3) now = .ok arts →
        GetTrendingArticles ops ts st lat lon limit now =
          (.ok (arts.take limit),
           { ts with cache := (GetLocationClusterKey lat lon ts.clusterDegrees,
               ⟨arts, now + ts.cacheTTL⟩) :: ts.cache })) ∧
    (∀ res ts', GetTrendingArticles ops ts st lat lon limit now = (.ok res, ts') →
      res.length ≤ limit) := by
  refine ⟨?_, ?_, ?_⟩
  · intro c hc hfresh
    simp only [GetTrendingArticles, hc]
    rw [if_pos hfresh, take_if_short]
  · intro hmiss arts hct
    rcases hmiss with h0 | ⟨c, hc, hexp⟩
    · simp only [GetTrendingArticles, h0, hct]
      rw [take_if_short]
    · simp only [GetTrendingArticles, hc, hct]
      rw [if_neg (not_lt.mpr hexp), take_if_short]
  · intro res ts' hres
    simp only [GetTrendingArticles] at hres
    split at hres
    · split at hres
      · rw [Prod.mk.injEq] at hres
        obtain ⟨h1, _⟩ := hres
        rw [take_if_short] at h1
        rw [Except.ok.injEq] at h1
        rw [← h1]
        exact List.length_take_le _ _
      · split at hres
        · rw [Prod.mk.injEq] at hres
          exact absurd hres.1 (fun h => Except.noConfusion h)
        · rw [Prod.mk.injEq] at hres
          obtain ⟨h1, _⟩ := hres
          rw [take_if_short] at h1
          rw [Except.ok.injEq] at h1
          rw [← h1]
          exact List.length_take_le _ _
    · split at hres
      · rw [Prod.mk.injEq] at hres
        exact absurd hres.1 (fun h => Except.noConfusion h)
      · rw [Prod.mk.injEq] at hres
        obtain ⟨h1, _⟩ := hres
        rw [take_if_short] at h1
        rw [Except.ok.injEq] at h1
        rw [← h1]
        exact List.length_take_le _ _

/-- Witness for C9 on a concrete fresh cache hit. -/
theorem getTrendingArticles_cache_protocol_witness :
    GetTrendingArticles ⟨id, id, id, id, fun y _ => y, 3⟩
      ⟨[(GetLocationClusterKey 0 0 1, ⟨[⟨"x", 1, 0, 0⟩], 10⟩)], 5, 1⟩
      ⟨[], [], false, false, false⟩ 0 0 3 2 =
      (.ok (([⟨"x", 1, 0, 0⟩] : List Article).take 3),
       ⟨[(GetLocationClusterKey 0 0 1, ⟨[⟨"x", 1, 0, 0⟩], 10⟩)], 5, 1⟩) := by
  refine (getTrendingArticles_cache_protocol ⟨id, id, id, id, fun y _ => y, 3⟩
      ⟨[(GetLocationClusterKey 0 0 1, ⟨[⟨"x", 1, 0, 0⟩], 10⟩)], 5, 1⟩
      ⟨[], [], false, false, false⟩ 0 0 3 2).1
    ⟨[⟨"x", 1, 0, 0⟩], 10⟩ ?_ (by norm_num)
  simp [List.lookup]

/-- C6: a failing event-store or article-store read makes `computeTrending`
return `StoreUnavailable`, and on a cache miss `GetTrendingArticles`
propagates any computation error to the caller with the cache mapping
exactly as it was — no entry is created or replaced. -/
theorem getTrendingArticles_failure_leaves_cache (ops : RealOps)
    (ts : TrendingService) (st : Store) (lat lon : ℚ) (limit : ℕ) (now : ℚ) :
    ((st.eventsReadFails = true ∨
      (recentEventsRead st.events now = [] ∧ st.fallbackReadFails = true) ∨
      (recentEventsRead st.events now ≠ [] ∧ st.articlesReadFails = true)) →
      computeTrending ops st lat lon (limit * 3) now = .error .storeUnavailable) ∧
    (∀ err, (List.lookup (GetLocationClusterKey lat lon ts.clusterDegrees) ts.cache = none ∨
      ∃ c, List.lookup (GetLocationClusterKey lat lon ts.clusterDegrees) ts.cache = some c ∧
        c.expiresAt ≤ now) →
      computeTrending ops st lat lon (limit * 3) now = .error err →
      GetTrendingArticles ops ts st lat lon limit now = (.error err, ts)) := by
  constructor
  · intro hfail
    rcases hfail with hev | ⟨hwin, hfb⟩ | ⟨hwin, har⟩
    · simp [computeTrending, hev]
    · cases hev : st.eventsReadFails with
      | true => simp [computeTrending, hev]
      | false => simp [computeTrending, hev, hwin, hfb]
    · cases hev : st.eventsReadFails with
      | true => simp [computeTrending, hev]
      | false =>
        simp only [computeTrending, hev, Bool.false_eq_true, if_false, har, if_true]
        rw [if_neg (by simpa [List.isEmpty_iff] using hwin)]
  · intro err hmiss hct
    rcases hmiss with h0 | ⟨c, hc, hexp⟩
    · simp only [GetTrendingArticles, h0, hct]
    · simp only [GetTrendingArticles, hc, hct]
      rw [if_neg (not_lt.mpr hexp)]

/-- Witness for C6: an event-store failure on an empty cache surfaces the
error and leaves the cache empty. -/
theorem getTrendingArticles_failure_leaves_cache_witness :
    GetTrendingArticles ⟨id, id, id, id, fun y _ => y, 3⟩ ⟨[], 5, 1⟩
      ⟨[], [], true, false, false⟩ 0 0 3 2 =
      (.error .storeUnavailable, ⟨[], 5, 1⟩) := by
  have h := getTrendingArticles_failure_leaves_cache ⟨id, id, id, id, fun y _ => y, 3⟩
    ⟨[], 5, 1⟩ ⟨[], [], true, false, false⟩ 0 0 3 2
  exact h.2 .storeUnavailable (Or.inl rfl) (h.1 (Or.inl rfl))

/-- `selectPass` keeps the number of remaining entries. -/
theorem selectPass_length (x : articleScore) (l : List articleScore) :
    (selectPass x l).2.length = l.length := by
  induction l generalizing x with
  | nil => rfl
  | cons y t ih =>
    unfold selectPass
    split
    · simp [ih]
    · simp [ih]

/-- `selectPass` permutes the candidate and the scanned entries. -/
theorem selectPass_perm (x : articleScore) (l : List articleScore) :
    ((selectPass x l).1 :: (selectPass x l).2).Perm (x :: l) := by
  induction l generalizing x with
  | nil => exact List.Perm.refl _
  | cons y t ih =>
    unfold selectPass
    split
    · exact (List.Perm.swap x _ _).trans ((ih y).cons x)
    · exact (List.Perm.swap y _ _).trans (((ih x).cons y).trans (List.Perm.swap x y t))

/-- The entry `selectPass` selects has the greatest score among the scanned
entries and the candidate. -/
theorem selectPass_max (x : articleScore) (l : List articleScore) :
    ∀ z ∈ x :: l, z.score ≤ (selectPass x l).1.score := by
  induction l generalizing x with
  | nil =>
    intro z hz
    rw [List.mem_singleton] at hz
    subst hz
    exact le_refl _
  | cons y t ih =>
    intro z hz
    unfold selectPass
    split
    · rename_i hxy
      rcases List.mem_cons.mp hz with hzx | hz'
      · rw [hzx]
        exact le_trans (le_of_lt hxy) (ih y y (List.mem_cons_self _ _))
      · exact ih y z hz'
    · rename_i hxy
      rcases List.mem_cons.mp hz with hzx | hz'
      · rw [hzx]
        exact ih x x (List.mem_cons_self _ _)
      · rcases List.mem_cons.mp hz' with hzy | hz''
        · rw [hzy]
          exact le_trans (not_lt.mp hxy) (ih x x (List.mem_cons_self _ _))
        · exact ih x z (List.mem_cons_of_mem _ hz'')

/-- With fuel equal to the length, the swap sort permutes its input. -/
theorem goSortAux_perm : ∀ (n : ℕ) (l : List articleScore), n = l.length →
    (goSortAux n l).Perm l := by
  intro n
  induction n with
  | zero =>
    intro l h
    rw [eq_comm, List.length_eq_zero] at h
    subst h
    exact List.Perm.refl _
  | succ n ih =>
    intro l h
    cases l with
    | nil => exact List.Perm.refl _
    | cons x t =>
      have hn : n = (selectPass x t).2.length := by
        rw [selectPass_length]
        simpa using h
      exact (((ih _ hn).cons _).trans (selectPass_perm x t))

/-- With fuel equal to the length, the swap sort emits entries in descending
score order. -/
theorem goSortAux_sorted : ∀ (n : ℕ) (l : List articleScore), n = l.length →
    List.Sorted (fun a b => b.score ≤ a.score) (goSortAux n l) := by
  intro n
  induction n with
  | zero => intro l _; exact List.sorted_nil
  | succ n ih =>
    intro l h
    cases l with
    | nil => exact List.sorted_nil
    | cons x t =>
      have hn : n = (selectPass x t).2.length := by
        rw [selectPass_length]
        simpa using h
      show List.Sorted _ ((selectPass x t).1 :: goSortAux n (selectPass x t).2)
      rw [List.sorted_cons]
      constructor
      · intro b hb
        have hb2 : b ∈ (selectPass x t).2 := (goSortAux_perm n _ hn).subset hb
        have hb3 : b ∈ x :: t :=
          (selectPass_perm x t).subset (List.mem_cons_of_mem _ hb2)
        exact selectPass_max x t b hb3
      · exact ih _ hn

/-- The sorting phase of `computeTrending` permutes the scored entries. -/
theorem goSortScores_perm (l : List articleScore) : (goSortScores l).Perm l :=
  goSortAux_perm _ _ rfl

/-- The score-sort-truncate-project pipeline keeps ids pairwise distinct. -/
theorem pipeline_ids_nodup (f : Article → ℚ) (arts : List Article) (limit : ℕ)
    (h : (arts.map (·.id)).Nodup) :
    ((((goSortScores (arts.map (fun a => articleScore.mk a (f a)))).take limit).map
      (·.article)).map (·.id)).Nodup := by
  rw [List.map_map]
  refine List.Nodup.sublist ((List.take_sublist _ _).map _) ?_
  refine (List.Perm.nodup_iff ((goSortScores_perm _).map _)).mpr ?_
  rw [List.map_map]
  exact h

/-- The sorting phase of `computeTrending` sorts by score descending. -/
theorem goSortScores_sorted (l : List articleScore) :
    List.Sorted (fun a b => b.score ≤ a.score) (goSortScores l) :=
  goSortAux_sorted _ _ rfl

/-- C10: whenever `computeTrending` succeeds and the article table has
pairwise-distinct ids (its primary key), the returned list has
pairwise-distinct article ids — in particular each output slot holds a
distinct article. -/
theorem computeTrending_result_ids_nodup (ops : RealOps) (st : Store)
    (lat lon : ℚ) (limit : ℕ) (now : ℚ) (res : List Article)
    (hok : computeTrending ops st lat lon limit now = .ok res)
    (hnd : (st.articles.map (·.id)).Nodup) :
    (res.map (·.id)).Nodup := by
  simp only [computeTrending] at hok
  split at hok
  · cases hok
  · split at hok
    · split at hok
      · cases hok
      · rw [Except.ok.injEq] at hok
        subst hok
        unfold recentArticlesRead
        rw [List.map_take]
        refine List.Nodup.sublist (List.take_sublist _ _) ?_
        exact ((List.perm_insertionSort _ st.articles).map _).nodup_iff.mpr hnd
    · split at hok
      · cases hok
      · rw [Except.ok.injEq] at hok
        subst hok
        refine pipeline_ids_nodup _ _ _ ?_
        unfold articlesByIdsRead
        exact List.Nodup.sublist ((List.filter_sublist _).map _) hnd

/-- Events stamped at time 0 all lie in the one-hour window of a query at
time 0. -/
theorem recentEventsRead_zero (l : List Event) (h : ∀ e ∈ l, e.createdAt = 0) :
    recentEventsRead l 0 = l := by
  unfold recentEventsRead
  rw [List.filter_eq_self]
  intro e he
  rw [h e he, decide_eq_true_eq]
  norm_num

/-- `selectPass` on a two-element list. -/
theorem selectPass_pair (p q : articleScore) :
    selectPass p [q] = if p.score < q.score then (q, [p]) else (p, [q]) := by
  unfold selectPass
  split <;> rfl

/-- The swap sort leaves a two-element list unchanged when the later score
is not strictly greater — in particular on ties. -/
theorem goSortScores_pair (p q : articleScore) (h : ¬ p.score < q.score) :
    goSortScores [p, q] = [p, q] := by
  show goSortAux 2 [p, q] = [p, q]
  show (selectPass p [q]).1 :: goSortAux 1 (selectPass p [q]).2 = [p, q]
  rw [selectPass_pair, if_neg h]
  rfl

/-- The fixture haversine distance from the origin to itself is 0. -/
theorem haversine_opsW_origin : HaversineDistance opsW 0 0 0 0 = 0 := by
  simp [HaversineDistance, opsW, earthRadiusKm]

/-- A fixture VIEW event at the origin at time 0 scores 1. -/
theorem eventScore_origin_view (s : String) :
    eventScore opsW 0 0 0 ⟨s, .view, 0, 0, 0⟩ = 1 := by
  simp only [eventScore, haversine_opsW_origin]
  rw [if_neg (fun h => EventType.noConfusion h)]
  simp only [opsW]
  norm_num

/-- One fixture VIEW event accumulates score 1. -/
theorem interactionScore_single_view (s : String) :
    interactionScore opsW 0 0 0 [⟨s, .view, 0, 0, 0⟩] = 1 := by
  simp only [interactionScore, List.foldl_cons, List.foldl_nil, eventScore_origin_view]
  norm_num

/-- Two fixture VIEW events accumulate score 2. -/
theorem interactionScore_double_view (s : String) :
    interactionScore opsW 0 0 0 [⟨s, .view, 0, 0, 0⟩, ⟨s, .view, 0, 0, 0⟩] = 2 := by
  simp only [interactionScore, List.foldl_cons, List.foldl_nil, eventScore_origin_view]
  norm_num

/-- Evaluation of `computeTrending` on the tied two-article store with the
article table enumerated as `[artA, artB]`. -/
theorem computeTrending_tie_AB (limit : ℕ) :
    computeTrending opsW ⟨[evA, evB], [artA, artB], false, false, false⟩ 0 0 limit 0 =
      .ok ([artA, artB].take limit) := by
  have hwin : recentEventsRead [evA, evB] 0 = [evA, evB] :=
    recentEventsRead_zero _ (by decide)
  have hby : articlesByIdsRead [artA, artB] [evA.articleId, evB.articleId] =
      [artA, artB] := by decide
  have hsc : interactionScore opsW 0 0 0 ([evA, evB].filter
      (fun e => e.articleId == artB.id)) = interactionScore opsW 0 0 0
      ([evA, evB].filter (fun e => e.articleId == artA.id)) := rfl
  have hpair := goSortScores_pair
    ⟨artA, interactionScore opsW 0 0 0
      ([evA, evB].filter (fun e => e.articleId == artA.id))⟩
    ⟨artB, interactionScore opsW 0 0 0
      ([evA, evB].filter (fun e => e.articleId == artA.id))⟩
    (lt_irrefl _)
  simp only [computeTrending, hwin, hby, List.map_cons, List.map_nil, hsc,
    List.isEmpty_cons, Bool.false_eq_true, if_false, hpair, List.map_take]

/-- Evaluation of `computeTrending` on the tied two-article store with the
article table enumerated as `[artB, artA]`. -/
theorem computeTrending_tie_BA (limit : ℕ) :
    computeTrending opsW ⟨[evA, evB], [artB, artA], false, false, false⟩ 0 0 limit 0 =
      .ok ([artB, artA].take limit) := by
  have hwin : recentEventsRead [evA, evB] 0 = [evA, evB] :=
    recentEventsRead_zero _ (by decide)
  have hby : articlesByIdsRead [artB, artA] [evA.articleId, evB.articleId] =
      [artB, artA] := by decide
  have hsc : interactionScore opsW 0 0 0 ([evA, evB].filter
      (fun e => e.articleId == artA.id)) = interactionScore opsW 0 0 0
      ([evA, evB].filter (fun e => e.articleId == artB.id)) := rfl
  have hpair := goSortScores_pair
    ⟨artB, interactionScore opsW 0 0 0
      ([evA, evB].filter (fun e => e.articleId == artB.id))⟩
    ⟨artA, interactionScore opsW 0 0 0
      ([evA, evB].filter (fun e => e.articleId == artB.id))⟩
    (lt_irrefl _)
  simp only [computeTrending, hwin, hby, List.map_cons, List.map_nil, hsc,
    List.isEmpty_cons, Bool.false_eq_true, if_false, hpair, List.map_take]

/-- C7 counterexample: with two tied articles, the order `computeTrending`
returns depends on the enumeration order in which the article store
returns the same set of rows — repeated identical queries are not stable
under ties. -/
theorem computeTrending_tie_break_not_deterministic :
    ([artA, artB] : List Article).Perm [artB, artA] ∧
    computeTrending opsW ⟨[evA, evB], [artA, artB], false, false, false⟩ 0 0 2 0 ≠
      computeTrending opsW ⟨[evA, evB], [artB, artA], false, false, false⟩ 0 0 2 0 := by
  refine ⟨List.Perm.swap artB artA [], ?_⟩
  rw [computeTrending_tie_AB 2, computeTrending_tie_BA 2]
  intro hcon
  rw [Except.ok.injEq] at hcon
  simp [artA, artB] at hcon

/-- Witness for C10 on a concrete run returning one article. -/
theorem computeTrending_result_ids_nodup_witness :
    (([artA] : List Article).map (·.id)).Nodup :=
  computeTrending_result_ids_nodup opsW
    ⟨[evA, evB], [artA, artB], false, false, false⟩ 0 0 1 0 [artA]
    (by rw [computeTrending_tie_AB 1]; rfl) (by decide)

/-- A descending-sorted list whose scores are pairwise distinct is strictly
descending. -/
theorem sorted_strict_of_sorted_nodup (l : List articleScore)
    (hs : List.Sorted (fun a b => b.score ≤ a.score) l)
    (hn : (l.map (fun s => s.score)).Nodup) :
    List.Pairwise (fun a b => b.score < a.score) l := by
  have hne : List.Pairwise (fun a b => a.score ≠ b.score) l := List.pairwise_map.mp hn
  exact (hs.and hne).imp
    (fun hab => lt_of_le_of_ne hab.1 (Ne.symm hab.2))

/-- Two descending-sorted permutations of each other with pairwise-distinct
scores are equal. -/
theorem sorted_nodup_perm_eq (l1 l2 : List articleScore)
    (hp : l1.Perm l2)
    (h1 : List.Sorted (fun a b => b.score ≤ a.score) l1)
    (h2 : List.Sorted (fun a b => b.score ≤ a.score) l2)
    (hn : (l1.map (fun s => s.score)).Nodup) : l1 = l2 := by
  haveI : IsAntisymm articleScore (fun a b => b.score < a.score) :=
    ⟨fun _ _ hab hba => absurd hba (lt_asymm hab)⟩
  have hn2 : (l2.map (fun s => s.score)).Nodup := ((hp.map _).nodup_iff).mp hn
  exact List.eq_of_perm_of_sorted hp (sorted_strict_of_sorted_nodup _ h1 hn)
    (sorted_strict_of_sorted_nodup _ h2 hn2)

/-- C7 amended: `computeTrending` is a pure function of the store-returned
sequences, and when the accumulated scores of the fetched articles are
pairwise distinct its result does not depend on the enumeration order in
which the article store returns the rows.  (Over exact arithmetic the
event enumeration order only permutes each per-article sum, which cannot
change it; ties, refuted separately, are the only instability.) -/
theorem computeTrending_enumeration_invariant_of_distinct_scores
    (ops : RealOps) (ev : List Event) (as1 as2 : List Article)
    (lat lon : ℚ) (limit : ℕ) (now : ℚ)
    (hperm : as1.Perm as2)
    (hne : recentEventsRead ev now ≠ [])
    (hdist : ((articlesByIdsRead as1 ((recentEventsRead ev now).map (fun e => e.articleId))).map
      (fun a => interactionScore ops lat lon now
        ((recentEventsRead ev now).filter (fun e => e.articleId == a.id)))).Nodup) :
    computeTrending ops ⟨ev, as1, false, false, false⟩ lat lon limit now =
      computeTrending ops ⟨ev, as2, false, false, false⟩ lat lon limit now := by
  have hops : ∀ as : List Article,
      (articlesByIdsRead as ((recentEventsRead ev now).map (fun e => e.articleId))).map
        (fun a => ({ article := a
                     score := interactionScore ops lat lon now
                       ((recentEventsRead ev now).filter
                         (fun e => e.articleId == a.id)) } : articleScore)) =
      (articlesByIdsRead as ((recentEventsRead ev now).map (fun e => e.articleId))).map
        (fun a => articleScore.mk a (interactionScore ops lat lon now
          ((recentEventsRead ev now).filter (fun e => e.articleId == a.id)))) :=
    fun _ => rfl
  have hpermArts : (articlesByIdsRead as1
      ((recentEventsRead ev now).map (fun e => e.articleId))).Perm
      (articlesByIdsRead as2 ((recentEventsRead ev now).map (fun e => e.articleId))) :=
    hperm.filter _
  have hpermScores := hpermArts.map (fun a => articleScore.mk a
    (interactionScore ops lat lon now
      ((recentEventsRead ev now).filter (fun e => e.articleId == a.id))))
  have hsorteq : goSortScores ((articlesByIdsRead as1
        ((recentEventsRead ev now).map (fun e => e.articleId))).map
        (fun a => articleScore.mk a (interactionScore ops lat lon now
          ((recentEventsRead ev now).filter (fun e => e.articleId == a.id))))) =
      goSortScores ((articlesByIdsRead as2
        ((recentEventsRead ev now).map (fun e => e.articleId))).map
        (fun a => articleScore.mk a (interactionScore ops lat lon now
          ((recentEventsRead ev now).filter (fun e => e.articleId == a.id))))) := by
    refine sorted_nodup_perm_eq _ _
      (((goSortScores_perm _).trans hpermScores).trans (goSortScores_perm _).symm)
      (goSortScores_sorted _) (goSortScores_sorted _) ?_
    refine ((goSortScores_perm _).map (fun s => s.score)).nodup_iff.mpr ?_
    rw [List.map_map]
    exact hdist
  have hL : (recentEventsRead ev now).isEmpty = false := by
    cases hcase : recentEventsRead ev now with
    | nil => exact absurd hcase hne
    | cons x t => rfl
  simp only [computeTrending, hL, Bool.false_eq_true, if_false, hops, hsorteq]

/-- Witness for C7 amended: one view for `"a"`, two views for `"b"` give
distinct scores 1 and 2, so both enumeration orders of the article table
yield the same result. -/
theorem computeTrending_enumeration_invariant_witness :
    computeTrending opsW ⟨[evA, evB, evB], [artA, artB], false, false, false⟩ 0 0 2 0 =
      computeTrending opsW ⟨[evA, evB, evB], [artB, artA], false, false, false⟩ 0 0 2 0 := by
  have hwin : recentEventsRead [evA, evB, evB] 0 = [evA, evB, evB] :=
    recentEventsRead_zero _ (by decide)
  refine computeTrending_enumeration_invariant_of_distinct_scores opsW
    [evA, evB, evB] [artA, artB] [artB, artA] 0 0 2 0
    (List.Perm.swap artB artA []) (by rw [hwin]; simp) ?_
  rw [hwin]
  have hby : articlesByIdsRead [artA, artB] ([evA, evB, evB].map (fun e => e.articleId)) =
      [artA, artB] := by decide
  rw [hby]
  have hfa : ([evA, evB, evB].filter (fun e => e.articleId == artA.id)) = [evA] := by decide
  have hfb : ([evA, evB, evB].filter (fun e => e.articleId == artB.id)) = [evB, evB] := by
    decide
  rw [List.map_cons, List.map_cons, List.map_nil, hfa, hfb]
  have h1 : interactionScore opsW 0 0 0 [evA] = 1 := interactionScore_single_view "a"
  have h2 : interactionScore opsW 0 0 0 [evB, evB] = 2 := interactionScore_double_view "b"
  rw [h1, h2]
  norm_num

end Inshorts
